import Mathlib

/-!
Verification of navidrome's playlist-image feature
(`server/nativeapi/playlist_image.go`) against its specification.

The Go code is shallowly embedded:

* Paths are lists of characters (`GoPath`).  Go's `filepath.Clean` (unix
  rules, separator `/`) is embedded as `goClean`: it splits the path on
  `/` and processes the elements with the standard stack semantics of the
  lazybuf loop in `path/filepath/path.go` — empty and `.` elements are
  dropped, `..` pops the last retained element when possible, is dropped
  at the root of a rooted path, and is retained at the front of an
  unrooted path.  `goJoin` embeds `filepath.Join`: drop leading empty
  elements, interleave `/`, then `Clean`.
* `playlistImagePath` is the line-by-line embedding of the function of
  the same name in `playlist_image.go`, with `conf.Server.DataFolder`
  passed explicitly.
* The two HTTP handlers `uploadPlaylistImage` and `deletePlaylistImage`
  are embedded as pure functions from an environment (the outcomes of the
  external calls: repository `Get`/`Put`, authenticated user, multipart
  parsing, image decoding, filesystem operations) and an initial
  filesystem to a result holding the handler's outcome (one constructor
  per `return` site of the Go code), the repository record afterwards,
  the filesystem afterwards, and the trace of side-effecting calls made.
* The filesystem is a list of existing paths; `os.MkdirAll`, `imaging.Save`,
  `os.Remove` and `os.RemoveAll` act on it in the obvious way.
-/

/-- A filesystem path, as the list of its characters (Go `string`). -/
abbrev GoPath := List Char

/-- The path separator on unix, `filepath.Separator`. -/
def pathSep : Char := '/'

/-- Split a path on `/`, keeping empty segments (as Go's element scan does:
consecutive separators produce empty elements, which `Clean` then skips). -/
def splitSlash : GoPath → List GoPath
  | [] => [[]]
  | c :: cs =>
    if c = pathSep then [] :: splitSlash cs
    else
      match splitSlash cs with
      | [] => [[c]]
      | e :: es => (c :: e) :: es

/-- The element `..`. -/
def dotdot : GoPath := ['.', '.']

/-- One step of `filepath.Clean`'s element processing, on a stack of retained
elements kept most-recent-first.  Mirrors the lazybuf loop of
`path/filepath/path.go`: empty and `.` elements are skipped; `..` pops the
last retained element unless it is itself a retained `..` (the `out.w >
dotdot` case), is discarded at the root when `rooted`, and is retained when
not `rooted`; any other element is appended. -/
def cleanPush (rooted : Bool) (st : List GoPath) (e : GoPath) : List GoPath :=
  if e = [] ∨ e = ['.'] then st
  else if e = dotdot then
    match st with
    | [] => if rooted then [] else [dotdot]
    | top :: rest => if top = dotdot then dotdot :: top :: rest else rest
  else e :: st

/-- Interleave `/` between elements (`strings.Join(elems, "/")`). -/
def interSlash : List GoPath → GoPath
  | [] => []
  | [e] => e
  | e :: es => e ++ pathSep :: interSlash es

/-- Print the retained elements back as a path (the tail of `Clean`):
an empty retained list is `/` when rooted and `.` otherwise. -/
def renderStack (rooted : Bool) (st : List GoPath) : GoPath :=
  match rooted, st with
  | true, [] => [pathSep]
  | true, st => pathSep :: interSlash st
  | false, [] => ['.']
  | false, st => interSlash st

/-- The retained-element stack (most-recent-first) of `Clean` on `p`,
given rootedness. -/
def cleanStack (rooted : Bool) (p : GoPath) : List GoPath :=
  (splitSlash p).foldl (cleanPush rooted) []

/-- Whether the path begins with the separator (`rooted` in `Clean`). -/
def isRooted : GoPath → Bool
  | [] => false
  | c :: _ => c = pathSep

/-- Embedding of Go's `filepath.Clean` (unix): `Clean("") = "."`; otherwise
split on `/`, process the elements with `cleanPush`, and print the result. -/
def goClean (p : GoPath) : GoPath :=
  if p = [] then ['.']
  else renderStack (isRooted p) ((cleanStack (isRooted p) p).reverse)

/-- Embedding of Go's `filepath.Join`: skip leading empty elements, join the
rest with `/`, and `Clean`; all elements empty gives `""`. -/
def goJoin (elems : List GoPath) : GoPath :=
  match elems.dropWhile (· = []) with
  | [] => []
  | es => goClean (interSlash es)

/-- `playlistImageDir` from `playlist_image.go`: the characters of
`"playlist-images"`. -/
def playlistImageDir : GoPath :=
  ['p', 'l', 'a', 'y', 'l', 'i', 's', 't', '-', 'i', 'm', 'a', 'g', 'e', 's']

example : playlistImageDir = "playlist-images".toList := by decide

/-- Embedding of `playlistImagePath` from `playlist_image.go`:

    p := filepath.Join(conf.Server.DataFolder, playlistImageDir, playlistID)
    p = filepath.Clean(p)
    base := filepath.Clean(filepath.Join(conf.Server.DataFolder, playlistImageDir))
    if !strings.HasPrefix(p, base+string(filepath.Separator)) {
        return "", false
    }
    return p, true

`conf.Server.DataFolder` is the explicit argument `dataFolder`. -/
def playlistImagePath (dataFolder playlistID : GoPath) : GoPath × Bool :=
  let p := goClean (goJoin [dataFolder, playlistImageDir, playlistID])
  let base := goClean (goJoin [dataFolder, playlistImageDir])
  if (base ++ [pathSep]).isPrefixOf p then (p, true) else ([], false)

example : goClean "/data/playlist-images/..".toList = "/data".toList := by decide
example : goClean "a/../../b".toList = "../b".toList := by decide
example : goClean "//a//".toList = "/a".toList := by decide
example : goClean "".toList = ['.'] := by rfl
example : goClean "/..".toList = "/".toList := by decide
example : goJoin ["/data".toList, playlistImageDir, "p1".toList]
    = "/data/playlist-images/p1".toList := by decide
example : playlistImagePath "/data".toList "p1".toList
    = ("/data/playlist-images/p1".toList, true) := by decide
example : (playlistImagePath "/data".toList "..".toList).2 = false := by decide
example : (playlistImagePath "/data".toList "a..b".toList).2 = true := by decide
example : (playlistImagePath "/data".toList "/etc/passwd".toList).2 = true := by decide
example : (playlistImagePath "/data".toList "a/b".toList).2 = true := by decide
example : (playlistImagePath "/data".toList "".toList).2 = false := by decide
example : (playlistImagePath "/data".toList "../x".toList).2 = false := by decide

/-! ## Structural lemmas about `goClean`

The stack produced by `cleanPush` always consists of a block of plain
elements on top of a block of retained `..` elements (the latter empty for
rooted paths); printing such a stack and cleaning again is the identity.
These lemmas let the claims be settled for an arbitrary `DataFolder`. -/

/-- An ordinary path element: nonempty, separator-free, neither `.` nor `..`. -/
def PlainElem (e : GoPath) : Prop :=
  e ≠ [] ∧ pathSep ∉ e ∧ e ≠ ['.'] ∧ e ≠ dotdot

/-- Shape invariant of the retained stack (most-recent-first): plain elements
on top of retained `..`s, and no retained `..`s when rooted. -/
def CleanStack (r : Bool) (st : List GoPath) : Prop :=
  ∃ ns k, st = ns ++ List.replicate k dotdot ∧ (∀ e ∈ ns, PlainElem e) ∧
    (r = true → k = 0)

theorem cleanStack_nil (r : Bool) : CleanStack r [] :=
  ⟨[], 0, by simp, by simp, fun _ => rfl⟩

theorem splitSlash_ne_nil (p : GoPath) : splitSlash p ≠ [] := by
  induction p with
  | nil => simp [splitSlash]
  | cons c cs ih =>
    simp only [splitSlash]
    split
    · simp
    · cases h : splitSlash cs with
      | nil => exact absurd h ih
      | cons e es => simp

theorem splitSlash_append (a b : GoPath) :
    splitSlash (a ++ pathSep :: b) = splitSlash a ++ splitSlash b := by
  induction a with
  | nil => simp [splitSlash]
  | cons c cs ih =>
    by_cases hc : c = pathSep
    · simp [splitSlash, hc, ih]
    · simp only [List.cons_append, splitSlash, if_neg hc, List.append_eq]
      rw [ih]
      cases h : splitSlash cs with
      | nil => exact absurd h (splitSlash_ne_nil cs)
      | cons e es => simp

theorem splitSlash_no_sep {e : GoPath} (h : pathSep ∉ e) : splitSlash e = [e] := by
  induction e with
  | nil => rfl
  | cons c cs ih =>
    simp only [List.mem_cons, not_or] at h
    simp only [splitSlash, if_neg (Ne.symm h.1)]
    rw [ih h.2]

theorem splitSlash_sep_free {p : GoPath} :
    ∀ e ∈ splitSlash p, pathSep ∉ e := by
  induction p with
  | nil => intro e he; simp [splitSlash] at he; simp [he]
  | cons c cs ih =>
    intro e he
    by_cases hc : c = pathSep
    · simp only [splitSlash, if_pos hc] at he
      rcases List.mem_cons.1 he with h | h
      · simp [h]
      · exact ih e h
    · simp only [splitSlash, if_neg hc] at he
      cases h : splitSlash cs with
      | nil => exact absurd h (splitSlash_ne_nil cs)
      | cons f fs =>
        rw [h] at he
        rcases List.mem_cons.1 he with h' | h'
        · subst h'
          intro hm
          rcases List.mem_cons.1 hm with h'' | h''
          · exact hc h''.symm
          · exact ih f (h ▸ List.mem_cons_self f fs) h''
        · exact ih e (h ▸ List.mem_cons.2 (Or.inr h'))

theorem cleanPush_plain (r : Bool) (st : List GoPath) {e : GoPath}
    (he : PlainElem e) : cleanPush r st e = e :: st := by
  obtain ⟨h1, _, h3, h4⟩ := he
  simp [cleanPush, h1, h3, h4]

theorem cleanPush_preserves {r : Bool} {st : List GoPath} {e : GoPath}
    (hst : CleanStack r st) (he : pathSep ∉ e) :
    CleanStack r (cleanPush r st e) := by
  obtain ⟨ns, k, hshape, hns, hk⟩ := hst
  by_cases h1 : e = [] ∨ e = ['.']
  · simpa [cleanPush, h1] using ⟨ns, k, hshape, hns, hk⟩
  by_cases h2 : e = dotdot
  · subst h2
    simp only [cleanPush, if_neg h1, if_pos rfl]
    match st, hshape with
    | [], hshape =>
      cases r with
      | true => exact ⟨[], 0, by simp, by simp, fun _ => rfl⟩
      | false =>
        refine ⟨[], 1, by simp [List.replicate], by simp, by simp⟩
    | top :: rest, hshape =>
      by_cases htop : top = dotdot
      · subst htop
        cases ns with
        | nil =>
          simp only [List.nil_append] at hshape
          cases k with
          | zero => simp at hshape
          | succ k' =>
            refine ⟨[], k' + 2, ?_, by simp, ?_⟩
            · simp only [if_pos rfl]
              rw [hshape]
              simp [List.replicate]
            · intro hr
              exact absurd (hk hr) (by simp)
        | cons n ns' =>
          exfalso
          have : n = dotdot := by
            have := hshape
            simp only [List.cons_append, List.cons.injEq] at this
            exact this.1.symm
          exact (hns n (List.mem_cons_self n ns')).2.2.2 this
      · simp only [if_neg htop]
        cases ns with
        | nil =>
          exfalso
          cases k with
          | zero => simp at hshape
          | succ k' =>
            have : top = dotdot := by
              simpa [List.replicate] using congrArg List.head? hshape
            exact htop this
        | cons n ns' =>
          have hn : n = top ∧ ns' ++ List.replicate k dotdot = rest := by
            have := hshape
            simp only [List.cons_append, List.cons.injEq] at this
            exact ⟨this.1.symm, this.2.symm⟩
          exact ⟨ns', k, hn.2.symm, fun e' he' => hns e' (List.mem_cons.2 (Or.inr he')), hk⟩
  · push_neg at h1
    have hp : PlainElem e := ⟨h1.1, he, h1.2, h2⟩
    rw [cleanPush_plain r st hp]
    exact ⟨e :: ns, k, by rw [hshape]; rfl,
      fun e' he' => (List.mem_cons.1 he').elim (fun h => h ▸ hp) (hns e'), hk⟩

theorem foldl_cleanPush_preserves {r : Bool} {l : List GoPath}
    (hl : ∀ e ∈ l, pathSep ∉ e) :
    ∀ {st : List GoPath}, CleanStack r st →
      CleanStack r (l.foldl (cleanPush r) st) := by
  induction l with
  | nil => intro st hst; simpa using hst
  | cons e es ih =>
    intro st hst
    simp only [List.foldl_cons]
    exact ih (fun e' he' => hl e' (List.mem_cons.2 (Or.inr he')))
      (cleanPush_preserves hst (hl e (List.mem_cons_self e es)))

theorem cleanStack_invariant (r : Bool) (p : GoPath) :
    CleanStack r (cleanStack r p) :=
  foldl_cleanPush_preserves (fun _ he => splitSlash_sep_free _ he) (cleanStack_nil r)

theorem cleanStack_elem {r : Bool} {st : List GoPath} (h : CleanStack r st) :
    ∀ e ∈ st, e ≠ [] ∧ pathSep ∉ e := by
  obtain ⟨ns, k, hshape, hns, -⟩ := h
  intro e he
  rw [hshape] at he
  rcases List.mem_append.1 he with h' | h'
  · obtain ⟨h1, h2, -, -⟩ := hns e h'
    exact ⟨h1, h2⟩
  · have : e = dotdot := List.eq_of_mem_replicate h'
    subst this
    exact ⟨by decide, by decide⟩

theorem interSlash_cons (e f : GoPath) (fs : List GoPath) :
    interSlash (e :: f :: fs) = e ++ pathSep :: interSlash (f :: fs) := rfl

theorem interSlash_ne_nil {es : List GoPath} (h : es ≠ [])
    (h' : ∀ e ∈ es, e ≠ []) : interSlash es ≠ [] := by
  match es with
  | [e] => exact h' e (by simp)
  | e :: f :: fs =>
    rw [interSlash_cons]
    intro hc
    exact (h' e (by simp)) (List.append_eq_nil.1 hc).1

theorem splitSlash_interSlash {es : List GoPath} (h : es ≠ [])
    (h' : ∀ e ∈ es, pathSep ∉ e) : splitSlash (interSlash es) = es := by
  match es with
  | [e] => exact splitSlash_no_sep (h' e (by simp))
  | e :: f :: fs =>
    rw [interSlash_cons, splitSlash_append,
      splitSlash_no_sep (h' e (by simp)),
      splitSlash_interSlash (by simp) (fun x hx => h' x (List.mem_cons.2 (Or.inr hx)))]
    rfl

theorem foldl_cleanPush_plain (r : Bool) {l : List GoPath}
    (hl : ∀ e ∈ l, PlainElem e) :
    ∀ st : List GoPath, l.foldl (cleanPush r) st = l.reverse ++ st := by
  induction l with
  | nil => intro st; simp
  | cons e es ih =>
    intro st
    rw [List.foldl_cons, cleanPush_plain r st (hl e (by simp)),
      ih (fun x hx => hl x (List.mem_cons.2 (Or.inr hx)))]
    simp

theorem foldl_cleanPush_dds (k j : Nat) :
    (List.replicate k dotdot).foldl (cleanPush false) (List.replicate j dotdot)
      = List.replicate (k + j) dotdot := by
  induction k generalizing j with
  | zero => simp
  | succ k' ih =>
    rw [List.replicate_succ, List.foldl_cons]
    have hstep : cleanPush false (List.replicate j dotdot) dotdot
        = List.replicate (j + 1) dotdot := by
      cases j with
      | zero => simp [cleanPush, dotdot]
      | succ j' =>
        simp only [List.replicate_succ, cleanPush]
        norm_num [dotdot]
        decide
    rw [hstep, ih (j + 1)]
    congr 1
    omega

theorem renderStack_true_cons (x : GoPath) (xs : List GoPath) :
    renderStack true (x :: xs) = pathSep :: interSlash (x :: xs) := rfl

theorem renderStack_false_cons (x : GoPath) (xs : List GoPath) :
    renderStack false (x :: xs) = interSlash (x :: xs) := rfl

theorem isRooted_interSlash {e : GoPath} {es : List GoPath}
    (h1 : e ≠ []) (h2 : pathSep ∉ e) :
    isRooted (interSlash (e :: es)) = false := by
  match e, es with
  | c :: cs, [] =>
    simp only [interSlash, isRooted, decide_eq_false_iff_not]
    exact fun hc => h2 (by simp [hc])
  | c :: cs, f :: fs =>
    rw [interSlash_cons]
    simp only [List.cons_append, isRooted, decide_eq_false_iff_not]
    exact fun hc => h2 (by simp [hc])

theorem renderStack_ne_nil {r : Bool} {st : List GoPath} (h : CleanStack r st) :
    renderStack r st.reverse ≠ [] := by
  cases hst : st.reverse with
  | nil => cases r <;> simp [renderStack]
  | cons x xs =>
    cases r with
    | true => rw [renderStack_true_cons]; simp
    | false =>
      rw [renderStack_false_cons]
      refine interSlash_ne_nil (by simp) ?_
      intro e he
      rw [← hst] at he
      exact (cleanStack_elem h e (List.mem_reverse.1 he)).1

/-- Parsing a printed clean stack recovers its rootedness and the stack
itself. -/
theorem cleanStack_roundtrip {r : Bool} {st : List GoPath} (h : CleanStack r st) :
    isRooted (renderStack r st.reverse) = r ∧
      cleanStack r (renderStack r st.reverse) = st := by
  obtain ⟨ns, k, hshape, hns, hk⟩ := h
  have hrev : st.reverse = List.replicate k dotdot ++ ns.reverse := by
    rw [hshape, List.reverse_append, List.reverse_replicate]
  cases hst : st.reverse with
  | nil =>
    have : st = [] := by simpa using congrArg List.reverse hst
    subst this
    cases r with
    | true => decide
    | false => decide
  | cons x xs =>
    have hxmem : ∀ e ∈ st.reverse, e ≠ [] ∧ pathSep ∉ e := by
      intro e he
      exact cleanStack_elem ⟨ns, k, hshape, hns, hk⟩ e (List.mem_reverse.1 he)
    have hne : st.reverse ≠ [] := by rw [hst]; simp
    have hsep : ∀ e ∈ st.reverse, pathSep ∉ e := fun e he => (hxmem e he).2
    have hsi : splitSlash (interSlash (x :: xs)) = x :: xs := by
      rw [← hst]
      exact splitSlash_interSlash hne hsep
    cases r with
    | true =>
      have hk0 : k = 0 := hk rfl
      subst hk0
      simp only [List.replicate, List.nil_append] at hrev
      have hplain : ∀ e ∈ st.reverse, PlainElem e := by
        intro e he
        rw [hrev, List.mem_reverse] at he
        exact hns e he
      have hsplit : splitSlash (pathSep :: interSlash (x :: xs))
          = [] :: (x :: xs) := by
        simp [splitSlash, hsi]
      constructor
      · rw [renderStack_true_cons]
        simp [isRooted]
      · rw [renderStack_true_cons]
        unfold cleanStack
        rw [hsplit, List.foldl_cons]
        have hnilpush : cleanPush true [] [] = [] := by simp [cleanPush]
        rw [hnilpush, ← hst, foldl_cleanPush_plain true hplain [],
          List.append_nil, List.reverse_reverse]
    | false =>
      have hxne : x ≠ [] := (hxmem x (by rw [hst]; simp)).1
      have hxsep : pathSep ∉ x := (hxmem x (by rw [hst]; simp)).2
      have hroot : isRooted (interSlash (x :: xs)) = false :=
        isRooted_interSlash hxne hxsep
      constructor
      · rw [renderStack_false_cons]
        exact hroot
      · rw [renderStack_false_cons]
        unfold cleanStack
        rw [hsi, ← hst, hrev, List.foldl_append]
        have h0 : (List.replicate k dotdot).foldl (cleanPush false) []
            = List.replicate k dotdot := by
          have := foldl_cleanPush_dds k 0
          simpa using this
        rw [h0, foldl_cleanPush_plain false
          (fun e he => hns e (List.mem_reverse.1 he)) _,
          List.reverse_reverse, ← hshape]

/-- Printing a clean stack and cleaning again is the identity: `Clean` is
idempotent on its own output. -/
theorem goClean_renderStack {r : Bool} {st : List GoPath}
    (h : CleanStack r st) :
    goClean (renderStack r st.reverse) = renderStack r st.reverse := by
  obtain ⟨hroot, hstack⟩ := cleanStack_roundtrip h
  unfold goClean
  rw [if_neg (renderStack_ne_nil h), hroot, hstack]

/-! ## Computing `playlistImagePath` for an arbitrary data folder -/

theorem isRooted_cons_append (c : Char) (cs x : List Char) :
    isRooted ((c :: cs) ++ x) = isRooted (c :: cs) := rfl

theorem plainElem_playlistImageDir : PlainElem playlistImageDir :=
  ⟨by decide, by decide, by decide, by decide⟩

theorem cleanStack_cons_plain {r : Bool} {st : List GoPath}
    (h : CleanStack r st) {e : GoPath} (he : PlainElem e) :
    CleanStack r (e :: st) := by
  have h' := cleanPush_preserves h he.2.1
  rwa [cleanPush_plain r st he] at h'

theorem interSlash_cons_ne {L : List GoPath} (h : L ≠ []) (x : GoPath) :
    interSlash (x :: L) = x ++ pathSep :: interSlash L := by
  match L with
  | f :: fs => rfl

theorem interSlash_append_single {l : List GoPath} (h : l ≠ []) (e : GoPath) :
    interSlash (l ++ [e]) = interSlash l ++ pathSep :: e := by
  match l with
  | [x] => rfl
  | x :: y :: ys =>
    rw [List.cons_append, interSlash_cons_ne (by simp) x,
      interSlash_append_single (l := y :: ys) (by simp) e, interSlash_cons]
    simp

theorem renderStack_append_single (r : Bool) {l : List GoPath} (h : l ≠ [])
    (e : GoPath) :
    renderStack r (l ++ [e]) = renderStack r l ++ pathSep :: e := by
  match l with
  | x :: xs =>
    cases r with
    | true =>
      rw [List.cons_append, renderStack_true_cons, renderStack_true_cons,
        ← List.cons_append, interSlash_append_single (by simp) e]
      simp
    | false =>
      rw [List.cons_append, renderStack_false_cons, renderStack_false_cons,
        ← List.cons_append, interSlash_append_single (by simp) e]

theorem interSlash_getLast {es : List GoPath} (h : es ≠ [])
    (h' : ∀ e ∈ es, e ≠ [] ∧ pathSep ∉ e) :
    ∃ c, (interSlash es).getLast? = some c ∧ c ≠ pathSep := by
  match es with
  | [e] =>
    obtain ⟨h1, h2⟩ := h' e (by simp)
    obtain ⟨c, hc⟩ := Option.isSome_iff_exists.1 (List.getLast?_isSome.2 h1)
    exact ⟨c, hc, fun hcs => h2 (hcs ▸ List.mem_of_getLast?_eq_some hc)⟩
  | e :: f :: fs =>
    obtain ⟨c, hc, hcs⟩ := interSlash_getLast (show (f :: fs : List GoPath) ≠ [] by simp)
      (fun x hx => h' x (List.mem_cons.2 (Or.inr hx)))
    refine ⟨c, ?_, hcs⟩
    rw [interSlash_cons, List.getLast?_append_of_ne_nil _ (by simp)]
    have hfne : interSlash (f :: fs) ≠ [] :=
      interSlash_ne_nil (by simp) (fun x hx => (h' x (List.mem_cons.2 (Or.inr hx))).1)
    cases hfs : interSlash (f :: fs) with
    | nil => exact absurd hfs hfne
    | cons g gs =>
      rw [List.getLast?_cons_cons, ← hfs]
      exact hc

/-- A rendered clean stack ends in a non-separator character unless it is the
bare root `/`. -/
theorem renderStack_getLast {r : Bool} {st : List GoPath} (h : CleanStack r st) :
    renderStack r st.reverse = [pathSep] ∨
      ∃ c, (renderStack r st.reverse).getLast? = some c ∧ c ≠ pathSep := by
  cases hst : st.reverse with
  | nil =>
    cases r with
    | true => exact Or.inl rfl
    | false => exact Or.inr ⟨'.', rfl, by decide⟩
  | cons x xs =>
    right
    have helem : ∀ e ∈ x :: xs, e ≠ [] ∧ pathSep ∉ e := by
      intro e he
      rw [← hst] at he
      exact cleanStack_elem h e (List.mem_reverse.1 he)
    obtain ⟨c, hc, hcs⟩ := interSlash_getLast (show (x :: xs : List GoPath) ≠ [] by simp) helem
    cases r with
    | true =>
      refine ⟨c, ?_, hcs⟩
      rw [renderStack_true_cons]
      rw [List.getLast?_cons, hc]
      have : interSlash (x :: xs) ≠ [] :=
        interSlash_ne_nil (by simp) (fun e he => (helem e he).1)
      match hin : interSlash (x :: xs), this with
      | g :: gs, _ => simp [← hin, hc, hin]
    | false => exact ⟨c, by rw [renderStack_false_cons]; exact hc, hcs⟩

theorem cleanStack_append (r : Bool) (D w : GoPath) :
    cleanStack r (D ++ pathSep :: w) =
      (splitSlash w).foldl (cleanPush r) (cleanStack r D) := by
  unfold cleanStack
  rw [splitSlash_append, List.foldl_append]

theorem goClean_sep_append (c : Char) (cs w : List Char) :
    goClean ((c :: cs) ++ pathSep :: w) =
      renderStack (isRooted (c :: cs))
        (((splitSlash w).foldl (cleanPush (isRooted (c :: cs)))
          (cleanStack (isRooted (c :: cs)) (c :: cs))).reverse) := by
  unfold goClean
  rw [if_neg (by simp), isRooted_cons_append, cleanStack_append]

theorem goJoin_cons_ne_nil {e : GoPath} (h : e ≠ []) (es : List GoPath) :
    goJoin (e :: es) = goClean (interSlash (e :: es)) := by
  unfold goJoin
  have hdw : (e :: es).dropWhile (· = []) = e :: es := by
    rw [List.dropWhile_cons]
    simp [h]
  rw [hdw]

theorem goJoin_nil_cons (es : List GoPath) : goJoin ([] :: es) = goJoin es := by
  unfold goJoin
  rw [List.dropWhile_cons]
  simp

theorem splitSlash_playlistImageDir_append (id : GoPath) :
    splitSlash (playlistImageDir ++ pathSep :: id) =
      playlistImageDir :: splitSlash id := by
  rw [splitSlash_append, splitSlash_no_sep (by decide)]
  rfl

/-- The rootedness and retained-element stack contributed by the data folder:
nothing for an empty folder (it is dropped by `Join`), otherwise the folder's
own clean stack. -/
def folderStack (D : GoPath) : Bool × List GoPath :=
  if D = [] then (false, []) else (isRooted D, cleanStack (isRooted D) D)

theorem folderStack_clean (D : GoPath) :
    CleanStack (folderStack D).1 (folderStack D).2 := by
  unfold folderStack
  split
  · exact cleanStack_nil false
  · exact cleanStack_invariant _ D

/-- `Join(dataFolder, playlistImageDir)` printed from its stack. -/
theorem goJoin_base (D : GoPath) :
    goJoin [D, playlistImageDir] =
      renderStack (folderStack D).1
        ((playlistImageDir :: (folderStack D).2).reverse) := by
  by_cases hD : D = []
  · subst hD
    rw [goJoin_nil_cons, goJoin_cons_ne_nil (by decide)]
    decide
  · match D, hD with
    | c :: cs, hD =>
      rw [goJoin_cons_ne_nil (by simp), interSlash_cons]
      show goClean ((c :: cs) ++ pathSep :: playlistImageDir) = _
      rw [goClean_sep_append, splitSlash_no_sep (e := playlistImageDir) (by decide)]
      unfold folderStack
      rw [if_neg (by simp)]
      simp only [List.foldl_cons, List.foldl_nil]
      rw [cleanPush_plain _ _ plainElem_playlistImageDir]

/-- `Join(dataFolder, playlistImageDir, playlistID)` printed from its stack:
the id's elements are pushed onto the stack holding the folder and
`playlist-images`. -/
theorem goClean_playlistImageDir_append (id : GoPath) :
    goClean (playlistImageDir ++ pathSep :: id) =
      renderStack false (((splitSlash id).foldl (cleanPush false)
        [playlistImageDir]).reverse) := by
  have h := goClean_sep_append 'p'
    ['l', 'a', 'y', 'l', 'i', 's', 't', '-', 'i', 'm', 'a', 'g', 'e', 's'] id
  rw [show isRooted ('p' :: ['l', 'a', 'y', 'l', 'i', 's', 't', '-', 'i', 'm',
    'a', 'g', 'e', 's']) = false by decide] at h
  rw [show cleanStack false ('p' :: ['l', 'a', 'y', 'l', 'i', 's', 't', '-',
    'i', 'm', 'a', 'g', 'e', 's']) = [playlistImageDir] by decide] at h
  exact h

theorem goJoin_full (D id : GoPath) :
    goJoin [D, playlistImageDir, id] =
      renderStack (folderStack D).1
        (((splitSlash id).foldl (cleanPush (folderStack D).1)
          (playlistImageDir :: (folderStack D).2)).reverse) := by
  by_cases hD : D = []
  · subst hD
    rw [goJoin_nil_cons, goJoin_cons_ne_nil (by decide), interSlash_cons]
    rw [show interSlash [id] = id from rfl, goClean_playlistImageDir_append]
    rfl
  · match D, hD with
    | c :: cs, hD =>
      rw [goJoin_cons_ne_nil (by simp), interSlash_cons, interSlash_cons]
      show goClean ((c :: cs) ++ pathSep :: (playlistImageDir ++ pathSep :: id)) = _
      rw [goClean_sep_append, splitSlash_playlistImageDir_append,
        List.foldl_cons, cleanPush_plain _ _ plainElem_playlistImageDir]
      unfold folderStack
      rw [if_neg (by simp)]

theorem cleanPush_empty (r : Bool) (st : List GoPath) : cleanPush r st [] = st := by
  unfold cleanPush
  rw [if_pos (Or.inl rfl)]

theorem cleanPush_dotdot_on_dir (r : Bool) (stD : List GoPath) :
    cleanPush r (playlistImageDir :: stD) dotdot = stD := by
  unfold cleanPush
  rw [if_neg (by decide), if_pos rfl]
  show (if playlistImageDir = dotdot then dotdot :: playlistImageDir :: stD
    else stD) = stD
  rw [if_neg (by decide)]

/-- The clean stack standing behind `p` in `playlistImagePath`. -/
def idStack (D id : GoPath) : List GoPath :=
  (splitSlash id).foldl (cleanPush (folderStack D).1)
    (playlistImageDir :: (folderStack D).2)

theorem baseStack_clean (D : GoPath) :
    CleanStack (folderStack D).1 (playlistImageDir :: (folderStack D).2) :=
  cleanStack_cons_plain (folderStack_clean D) plainElem_playlistImageDir

theorem idStack_clean (D id : GoPath) :
    CleanStack (folderStack D).1 (idStack D id) :=
  foldl_cleanPush_preserves (fun _ he => splitSlash_sep_free _ he)
    (baseStack_clean D)

/-- The `base` of `playlistImagePath`, printed from its stack. -/
theorem base_eq (D : GoPath) :
    goClean (goJoin [D, playlistImageDir]) =
      renderStack (folderStack D).1
        ((playlistImageDir :: (folderStack D).2).reverse) := by
  rw [goJoin_base]
  exact goClean_renderStack (baseStack_clean D)

/-- The `p` of `playlistImagePath`, printed from its stack. -/
theorem p_eq (D id : GoPath) :
    goClean (goJoin [D, playlistImageDir, id]) =
      renderStack (folderStack D).1 ((idStack D id).reverse) := by
  rw [goJoin_full]
  exact goClean_renderStack (idStack_clean D id)

/-- `playlistImagePath`, computed on the stack representation. -/
theorem playlistImagePath_eq (D id : GoPath) :
    playlistImagePath D id =
      (if (renderStack (folderStack D).1
            ((playlistImageDir :: (folderStack D).2).reverse) ++ [pathSep]).isPrefixOf
          (renderStack (folderStack D).1 ((idStack D id).reverse))
        then (renderStack (folderStack D).1 ((idStack D id).reverse), true)
        else ([], false)) := by
  unfold playlistImagePath
  rw [p_eq, base_eq]

theorem renderStack_length_append_single (r : Bool) (l : List GoPath)
    {e : GoPath} (he : e ≠ []) :
    (renderStack r l).length ≤ (renderStack r (l ++ [e])).length := by
  cases l with
  | nil =>
    cases r with
    | true => simp [renderStack, interSlash]
    | false =>
      simp only [renderStack, List.nil_append, interSlash, List.length_cons,
        List.length_nil]
      exact List.length_pos.2 he
  | cons x xs =>
    rw [renderStack_append_single r (by simp) e]
    simp

/-! ## Claims C1 and C2: the path resolver -/

/-- C1 as stated is false: the id `a..b` contains the substring `..`, yet
`playlistImagePath` accepts it for the root `/data` — `Clean` only treats
`..` specially as a whole path element, and `a..b` stays inside the base. -/
theorem C1_counterexample :
    (∃ pre post : GoPath, ['a', '.', '.', 'b'] = pre ++ dotdot ++ post) ∧
      (playlistImagePath ['/', 'd', 'a', 't', 'a'] ['a', '.', '.', 'b']).2
        = true :=
  ⟨⟨['a'], ['b'], by decide⟩, by decide⟩

/-- C1 (amended): for every storage root, `playlistImagePath` rejects the
playlist ids whose canonicalized join fails to land strictly below the
canonical base — in particular the empty id and the id `..` are rejected for
every root.  Mere occurrence of `..` inside a longer name, an absolute-path
prefix, or an embedded separator that stays below the base does not force
rejection. -/
theorem C1_escaping_ids_rejected (D : GoPath) :
    (playlistImagePath D []).2 = false ∧
      (playlistImagePath D dotdot).2 = false := by
  constructor
  · rw [playlistImagePath_eq]
    have hid : idStack D [] = playlistImageDir :: (folderStack D).2 := by
      unfold idStack
      rw [show splitSlash [] = [[]] from rfl]
      simp only [List.foldl_cons, List.foldl_nil]
      rw [cleanPush_empty]
    rw [hid, if_neg ?hpre]
    case hpre =>
      intro hpre
      have hlen := (List.isPrefixOf_iff_prefix.1 hpre).length_le
      simp at hlen
  · rw [playlistImagePath_eq]
    have hid : idStack D dotdot = (folderStack D).2 := by
      unfold idStack
      rw [splitSlash_no_sep (by decide)]
      simp only [List.foldl_cons, List.foldl_nil]
      exact cleanPush_dotdot_on_dir _ _
    rw [hid, if_neg ?hpre2]
    case hpre2 =>
      intro hpre
      have hlen := (List.isPrefixOf_iff_prefix.1 hpre).length_le
      have hle : (renderStack (folderStack D).1 ((folderStack D).2.reverse)).length
          ≤ (renderStack (folderStack D).1
              ((playlistImageDir :: (folderStack D).2).reverse)).length := by
        rw [List.reverse_cons]
        exact renderStack_length_append_single _ _ (by decide)
      simp only [List.length_append, List.length_cons, List.length_nil] at hlen
      omega

/-- C2: `playlistImagePath` is a pure total function of its two string
arguments (it is a Lean function: deterministic, free of I/O, and defined on
every input).  Whenever it returns `ok = true`, the returned directory is the
canonical base `Clean(Join(dataFolder, playlistImageDir))` extended by a
separator and a nonempty remainder, so nesting is decided on a separator
boundary and a sibling such as `.../playlist-images2/x` is never accepted;
and every nonempty playlist id made of alphanumeric characters only is
accepted. -/
theorem C2_pathResolver_nesting (D id : GoPath) :
    ((playlistImagePath D id).2 = true →
      ∃ rest, rest ≠ [] ∧
        (playlistImagePath D id).1 =
          goClean (goJoin [D, playlistImageDir]) ++ pathSep :: rest) ∧
    (id ≠ [] → (∀ c ∈ id, c.isAlphanum = true) →
      (playlistImagePath D id).2 = true) := by
  constructor
  · intro hok
    rw [playlistImagePath_eq] at hok ⊢
    by_cases hpre : ((renderStack (folderStack D).1
        ((playlistImageDir :: (folderStack D).2).reverse) ++ [pathSep]).isPrefixOf
          (renderStack (folderStack D).1 ((idStack D id).reverse))) = true
    · obtain ⟨rest, hrest⟩ := List.isPrefixOf_iff_prefix.1 hpre
      refine ⟨rest, ?_, ?_⟩
      · intro h0
        subst h0
        rw [List.append_nil] at hrest
        rcases renderStack_getLast (idStack_clean D id) with hroot | ⟨c, hc, hcs⟩
        · rw [← hrest] at hroot
          have hlen := congrArg List.length hroot
          simp only [List.length_append, List.length_cons, List.length_nil]
            at hlen
          have hbn := List.length_pos.2 (renderStack_ne_nil (baseStack_clean D))
          omega
        · rw [← hrest, List.getLast?_concat] at hc
          exact hcs (Option.some.inj hc).symm
      · rw [if_pos hpre, base_eq]
        rw [← hrest]
        simp
    · rw [if_neg hpre] at hok
      exact absurd hok (by simp)
  · intro hne halnum
    have hplain : PlainElem id := by
      refine ⟨hne, ?_, ?_, ?_⟩
      · intro hmem
        exact absurd (halnum _ hmem) (by decide)
      · intro hdot
        subst hdot
        exact absurd (halnum '.' (by simp)) (by decide)
      · intro hdd
        subst hdd
        exact absurd (halnum '.' (by simp [dotdot])) (by decide)
    have hid : idStack D id = id :: playlistImageDir :: (folderStack D).2 := by
      unfold idStack
      rw [splitSlash_no_sep hplain.2.1]
      simp only [List.foldl_cons, List.foldl_nil]
      exact cleanPush_plain _ _ hplain
    have hp : renderStack (folderStack D).1 ((idStack D id).reverse)
        = renderStack (folderStack D).1
            ((playlistImageDir :: (folderStack D).2).reverse)
          ++ pathSep :: id := by
      rw [hid, List.reverse_cons id (playlistImageDir :: (folderStack D).2),
        renderStack_append_single _ (by simp) id]
    rw [playlistImagePath_eq, hp, if_pos ?hpre3]
    case hpre3 =>
      rw [List.append_cons _ pathSep id]
      exact List.isPrefixOf_iff_prefix.2 (List.prefix_append _ _)

/-- Concrete instantiation of `C2_pathResolver_nesting` at the root `/data`
and the alphanumeric id `p1`. -/
theorem C2_pathResolver_nesting_witness :
    (∃ rest, rest ≠ [] ∧
        (playlistImagePath ['/', 'd', 'a', 't', 'a'] ['p', '1']).1 =
          goClean (goJoin [['/', 'd', 'a', 't', 'a'], playlistImageDir])
            ++ pathSep :: rest) ∧
      (playlistImagePath ['/', 'd', 'a', 't', 'a'] ['p', '1']).2 = true :=
  ⟨(C2_pathResolver_nesting ['/', 'd', 'a', 't', 'a'] ['p', '1']).1 (by decide),
    (C2_pathResolver_nesting ['/', 'd', 'a', 't', 'a'] ['p', '1']).2
      (by decide) (by decide)⟩

/-! ## The image pipeline constants and the resize step -/

/-- `maxImageDimension` from `playlist_image.go`. -/
def maxImageDimension : Nat := 1200

/-- Image formats the decoder set registers (jpeg/png/gif/webp). -/
inductive ImgFormat
  | jpeg | png | gif | webp
deriving Repr, DecidableEq

/-- Modelled from the spec: the dimensions `imaging.Fit(img, maxDim, maxDim, Lanczos)`
produces for an image that does not already fit — the third-party resize whose
source is not part of this repository.  Per §4.2 it "performs an
aspect-ratio-preserving resize so the larger dimension equals `maxDimension`":
the larger side becomes `maxDim` and the shorter side is scaled by the same
ratio, rounding down. -/
def fitDims (dx dy maxDim : Nat) : Nat × Nat :=
  if dy ≤ dx then (maxDim, dy * maxDim / dx) else (dx * maxDim / dy, maxDim)

/-- The resize step of `uploadPlaylistImage` (lines 99–102): the decoded bounds
are left unchanged unless `bounds.Dx() > maxImageDimension || bounds.Dy() >
maxImageDimension`, in which case `imaging.Fit` caps them. -/
def resizeBounds (dx dy : Nat) : Nat × Nat :=
  if dx > maxImageDimension ∨ dy > maxImageDimension then
    fitDims dx dy maxImageDimension
  else (dx, dy)

/-- The `Normalize` pipeline applied to a decoded image, observed at the level
of pixel bounds and stored format: the resize step above, then the re-encode
as JPEG that `imaging.Save(img, destPath, imaging.JPEGQuality(...))` performs
when the handler writes `cover.jpg` (lines 117–119). -/
def normalizeImage (dims : Nat × Nat) : (Nat × Nat) × ImgFormat :=
  (resizeBounds dims.1 dims.2, ImgFormat.jpeg)

/-! ## The filesystem model

A filesystem is the list of paths that exist.  The handlers touch it through
`os.MkdirAll`, `imaging.Save` (creates the file), `os.Remove` (removes exactly
the named path) and `os.RemoveAll` (removes the named path and everything
below it). -/

/-- `os.MkdirAll dir`: the directory exists afterwards. -/
def fsMkdirAll (fs : List GoPath) (dir : GoPath) : List GoPath := dir :: fs

/-- `imaging.Save` to `path`: the file exists afterwards. -/
def fsSave (fs : List GoPath) (path : GoPath) : List GoPath := path :: fs

/-- `os.Remove path`: exactly the named path is gone afterwards. -/
def fsRemove (fs : List GoPath) (path : GoPath) : List GoPath :=
  fs.filter (fun q => q ≠ path)

/-- `os.RemoveAll dir`: the directory and everything below it are gone. -/
def fsRemoveAll (fs : List GoPath) (dir : GoPath) : List GoPath :=
  fs.filter (fun q => ¬(q = dir ∨ (dir ++ [pathSep]).isPrefixOf q))

/-- Whether a path exists in the filesystem. -/
def fsExists (fs : List GoPath) (p : GoPath) : Bool := fs.contains p

/-! ## The handlers

Each handler is embedded as a pure function of an environment carrying the
outcomes of its external calls, plus the initial filesystem.  The repository
holds at most the one playlist the handler fetches; `GetResult.found pls`
says the repository's record for the requested id is `pls`. -/

/-- The fields of `model.Playlist` the handlers read or write. -/
structure Playlist where
  id : GoPath
  ownerID : String
  imagePath : GoPath
deriving Repr, DecidableEq

/-- The authenticated user (`request.UserFrom`). -/
structure User where
  id : String
  isAdmin : Bool
deriving Repr, DecidableEq

/-- Outcome of `ds.Playlist(ctx).Get(playlistID)`. -/
inductive GetResult
  | notFound
  | getError
  | found (pls : Playlist)
deriving Repr, DecidableEq

/-- The side-effecting external calls a handler makes, in order. -/
inductive Event
  | decodeAttempt
  | mkdirAll (dir : GoPath)
  | saveFile (path : GoPath)
  | removeFile (path : GoPath)
  | removeAll (dir : GoPath)
  | putRecord (pls : Playlist)
deriving Repr, DecidableEq

/-- Outcomes of the external calls `uploadPlaylistImage` makes, one field per
call site, plus the configuration and URL parameter it reads. -/
structure UploadEnv where
  dataFolder : GoPath
  playlistID : GoPath
  getResult : GetResult
  user : Option User
  parseFormOk : Bool
  formFileOk : Bool
  decodeResult : Option (Nat × Nat)
  mkdirOk : Bool
  saveOk : Bool
  putOk : Bool
deriving Repr

/-- One constructor per `return` site of `uploadPlaylistImage`. -/
inductive UploadOutcome
  | playlistNotFound
  | fetchError
  | unauthorized
  | forbidden
  | formTooLarge
  | missingFile
  | invalidImage
  | invalidIdentifier
  | mkdirError
  | saveError
  | putError
  | ok (destPath : GoPath)
deriving Repr, DecidableEq

/-- The HTTP status each upload return site writes. -/
def uploadStatus : UploadOutcome → Nat
  | .playlistNotFound => 404
  | .fetchError => 500
  | .unauthorized => 401
  | .forbidden => 403
  | .formTooLarge => 400
  | .missingFile => 400
  | .invalidImage => 400
  | .invalidIdentifier => 400
  | .mkdirError => 500
  | .saveError => 500
  | .putError => 500
  | .ok _ => 200

/-- The stored file name `"cover.jpg"`. -/
def coverJpg : GoPath := ['c', 'o', 'v', 'e', 'r', '.', 'j', 'p', 'g']

example : coverJpg = "cover.jpg".toList := by decide

/-- What a handler run leaves behind: its outcome, the repository record for
the playlist afterwards (`none` when the playlist does not exist), the
filesystem afterwards, and the trace of external calls. -/
structure HandlerResult (Outcome : Type) where
  outcome : Outcome
  record : Option Playlist
  fs : List GoPath
  events : List Event
deriving Repr

/-- Embedding of the `uploadPlaylistImage` handler body.  The control flow
follows the Go source line by line: fetch, authenticate, authorize, parse the
multipart form, read the file, decode (`image.Decode` — the decode attempt is
traced whether or not it succeeds), resize, resolve the storage path, make the
directory, save `cover.jpg`, commit the record with `Put`, and on `Put`
failure compensate with `os.Remove(destPath)`. -/
def uploadPlaylistImage (env : UploadEnv) (fs0 : List GoPath) :
    HandlerResult UploadOutcome :=
  match env.getResult with
  | .notFound => ⟨.playlistNotFound, none, fs0, []⟩
  | .getError => ⟨.fetchError, none, fs0, []⟩
  | .found pls =>
    match env.user with
    | none => ⟨.unauthorized, some pls, fs0, []⟩
    | some user =>
      if pls.ownerID ≠ user.id ∧ user.isAdmin = false then
        ⟨.forbidden, some pls, fs0, []⟩
      else if env.parseFormOk = false then
        ⟨.formTooLarge, some pls, fs0, []⟩
      else if env.formFileOk = false then
        ⟨.missingFile, some pls, fs0, []⟩
      else
        match env.decodeResult with
        | none => ⟨.invalidImage, some pls, fs0, [.decodeAttempt]⟩
        | some dims =>
          let _bounds := resizeBounds dims.1 dims.2
          match playlistImagePath env.dataFolder env.playlistID with
          | (_, false) => ⟨.invalidIdentifier, some pls, fs0, [.decodeAttempt]⟩
          | (dir, true) =>
            if env.mkdirOk = false then
              ⟨.mkdirError, some pls, fs0, [.decodeAttempt, .mkdirAll dir]⟩
            else
              let fs1 := fsMkdirAll fs0 dir
              let destPath := goJoin [dir, coverJpg]
              if env.saveOk = false then
                ⟨.saveError, some pls, fs1,
                  [.decodeAttempt, .mkdirAll dir, .saveFile destPath]⟩
              else
                let fs2 := fsSave fs1 destPath
                let pls' := { pls with imagePath := destPath }
                if env.putOk = false then
                  ⟨.putError, some pls, fsRemove fs2 destPath,
                    [.decodeAttempt, .mkdirAll dir, .saveFile destPath,
                      .putRecord pls', .removeFile destPath]⟩
                else
                  ⟨.ok destPath, some pls', fs2,
                    [.decodeAttempt, .mkdirAll dir, .saveFile destPath,
                      .putRecord pls']⟩

/-- Outcomes of the external calls `deletePlaylistImage` makes. -/
structure DeleteEnv where
  dataFolder : GoPath
  playlistID : GoPath
  getResult : GetResult
  user : Option User
  removeAllOk : Bool
  putOk : Bool
deriving Repr

/-- One constructor per `return` site of `deletePlaylistImage`. -/
inductive DeleteOutcome
  | playlistNotFound
  | fetchError
  | unauthorized
  | forbidden
  | noImage
  | putError
  | ok
deriving Repr, DecidableEq

/-- The HTTP status each delete return site writes. -/
def deleteStatus : DeleteOutcome → Nat
  | .playlistNotFound => 404
  | .fetchError => 500
  | .unauthorized => 401
  | .forbidden => 403
  | .noImage => 404
  | .putError => 500
  | .ok => 200

/-- Embedding of the `deletePlaylistImage` handler body: fetch, authenticate,
authorize, require a non-empty `ImagePath` (else 404), resolve the path and —
only if it is safe — `os.RemoveAll` the directory (a failure there is logged
and the handler continues), then clear `ImagePath` with `Put`. -/
def deletePlaylistImage (env : DeleteEnv) (fs0 : List GoPath) :
    HandlerResult DeleteOutcome :=
  match env.getResult with
  | .notFound => ⟨.playlistNotFound, none, fs0, []⟩
  | .getError => ⟨.fetchError, none, fs0, []⟩
  | .found pls =>
    match env.user with
    | none => ⟨.unauthorized, some pls, fs0, []⟩
    | some user =>
      if pls.ownerID ≠ user.id ∧ user.isAdmin = false then
        ⟨.forbidden, some pls, fs0, []⟩
      else if pls.imagePath = [] then
        ⟨.noImage, some pls, fs0, []⟩
      else
        match playlistImagePath env.dataFolder env.playlistID with
        | (dir, safe) =>
          let fs1 := if safe then
              if env.removeAllOk then fsRemoveAll fs0 dir else fs0
            else fs0
          let evs1 : List Event := if safe then [.removeAll dir] else []
          let pls' := { pls with imagePath := [] }
          if env.putOk = false then
            ⟨.putError, some pls, fs1, evs1 ++ [.putRecord pls']⟩
          else
            ⟨.ok, some pls', fs1, evs1 ++ [.putRecord pls']⟩

/-! ## The destination path `Join(dir, "cover.jpg")` -/

theorem playlistImagePath_dir {D id dir : GoPath}
    (hsafe : playlistImagePath D id = (dir, true)) :
    dir = renderStack (folderStack D).1 ((idStack D id).reverse)
      ∧ idStack D id ≠ [] := by
  rw [playlistImagePath_eq] at hsafe
  by_cases hpre : ((renderStack (folderStack D).1
      ((playlistImageDir :: (folderStack D).2).reverse) ++ [pathSep]).isPrefixOf
        (renderStack (folderStack D).1 ((idStack D id).reverse))) = true
  · rw [if_pos hpre] at hsafe
    refine ⟨(congrArg Prod.fst hsafe).symm, ?_⟩
    intro hS
    rw [hS, List.reverse_nil] at hpre
    have hlen := (List.isPrefixOf_iff_prefix.1 hpre).length_le
    rw [List.length_append, List.length_cons, List.length_nil] at hlen
    have hbn := List.length_pos.2 (renderStack_ne_nil (baseStack_clean D))
    have h1 : (renderStack (folderStack D).1 []).length = 1 := by
      cases (folderStack D).1 <;> rfl
    omega
  · rw [if_neg hpre] at hsafe
    exact absurd (congrArg Prod.snd hsafe) (by simp)

/-- For an accepted id, `Join(dir, "cover.jpg")` is plain concatenation. -/
theorem destPath_eq {D id dir : GoPath}
    (hsafe : playlistImagePath D id = (dir, true)) :
    goJoin [dir, coverJpg] = dir ++ pathSep :: coverJpg := by
  obtain ⟨hdir, hSne⟩ := playlistImagePath_dir hsafe
  have hclean : CleanStack (folderStack D).1 (idStack D id) := idStack_clean D id
  have hdirne : dir ≠ [] := by
    rw [hdir]
    exact renderStack_ne_nil hclean
  obtain ⟨hroot, hstack⟩ := cleanStack_roundtrip hclean
  obtain ⟨c, cs, hcc⟩ : ∃ c cs, dir = c :: cs := by
    cases dir with
    | nil => exact absurd rfl hdirne
    | cons a b => exact ⟨a, b, rfl⟩
  subst hcc
  rw [goJoin_cons_ne_nil (by simp), interSlash_cons,
    show interSlash [coverJpg] = coverJpg from rfl, goClean_sep_append, hdir,
    hroot, hstack, splitSlash_no_sep (e := coverJpg) (by decide)]
  simp only [List.foldl_cons, List.foldl_nil]
  rw [cleanPush_plain _ _ (show PlainElem coverJpg by
    exact ⟨by decide, by decide, by decide, by decide⟩),
    List.reverse_cons, renderStack_append_single _ (by simp [hSne]) coverJpg]

theorem destPath_ne {D id dir : GoPath}
    (hsafe : playlistImagePath D id = (dir, true)) :
    goJoin [dir, coverJpg] ≠ dir := by
  rw [destPath_eq hsafe]
  intro hcontra
  have hlen := congrArg List.length hcontra
  simp at hlen

/-! ## Claim C7: Normalize bounds -/

/-- C7: a decoded image whose larger dimension is at most `maxImageDimension`
is left at its original pixel bounds (the resize branch is not taken), and the
stored format is JPEG; an image whose larger dimension exceeds
`maxImageDimension` comes out with larger dimension exactly
`maxImageDimension`, the shorter side being the floor of the
aspect-preserving scale (the rounding tolerance), still stored as JPEG. -/
theorem C7_normalize_dims (dx dy : Nat) :
    (max dx dy ≤ maxImageDimension →
      normalizeImage (dx, dy) = ((dx, dy), ImgFormat.jpeg)) ∧
    (maxImageDimension < max dx dy →
      max (normalizeImage (dx, dy)).1.1 (normalizeImage (dx, dy)).1.2
          = maxImageDimension ∧
        (normalizeImage (dx, dy)).2 = ImgFormat.jpeg ∧
        (dy ≤ dx →
          (normalizeImage (dx, dy)).1
              = (maxImageDimension, dy * maxImageDimension / dx) ∧
            dy * maxImageDimension / dx * dx ≤ dy * maxImageDimension ∧
            dy * maxImageDimension
              < (dy * maxImageDimension / dx + 1) * dx) ∧
        (dx < dy →
          (normalizeImage (dx, dy)).1
              = (dx * maxImageDimension / dy, maxImageDimension) ∧
            dx * maxImageDimension / dy * dy ≤ dx * maxImageDimension ∧
            dx * maxImageDimension
              < (dx * maxImageDimension / dy + 1) * dy)) := by
  constructor
  · intro h
    obtain ⟨h1, h2⟩ := Nat.max_le.1 h
    simp [normalizeImage, resizeBounds, Nat.not_lt.2 h1, Nat.not_lt.2 h2]
  · intro h
    by_cases hxy : dy ≤ dx
    · have hdx : maxImageDimension < dx := by
        rwa [Nat.max_eq_left hxy] at h
      have heq : normalizeImage (dx, dy)
          = ((maxImageDimension, dy * maxImageDimension / dx),
              ImgFormat.jpeg) := by
        unfold normalizeImage resizeBounds fitDims
        rw [if_pos (Or.inl hdx), if_pos hxy]
      have hny : dy * maxImageDimension / dx ≤ maxImageDimension := by
        calc dy * maxImageDimension / dx
            ≤ dx * maxImageDimension / dx :=
              Nat.div_le_div_right (Nat.mul_le_mul_right _ hxy)
          _ = maxImageDimension := Nat.mul_div_cancel_left _ (by omega)
      rw [heq]
      exact ⟨Nat.max_eq_left hny, rfl,
        fun _ => ⟨rfl, Nat.div_mul_le_self _ _,
          (Nat.div_lt_iff_lt_mul (by omega)).1 (Nat.lt_succ_self _)⟩,
        fun hlt => absurd hlt (Nat.not_lt.2 hxy)⟩
    · have hyx : dx ≤ dy := Nat.le_of_lt (Nat.lt_of_not_le hxy)
      have hdy : maxImageDimension < dy := by
        rwa [Nat.max_eq_right hyx] at h
      have heq : normalizeImage (dx, dy)
          = ((dx * maxImageDimension / dy, maxImageDimension),
              ImgFormat.jpeg) := by
        unfold normalizeImage resizeBounds fitDims
        rw [if_pos (Or.inr hdy), if_neg hxy]
      have hnx : dx * maxImageDimension / dy ≤ maxImageDimension := by
        calc dx * maxImageDimension / dy
            ≤ dy * maxImageDimension / dy :=
              Nat.div_le_div_right (Nat.mul_le_mul_right _ hyx)
          _ = maxImageDimension := Nat.mul_div_cancel_left _ (by omega)
      rw [heq]
      exact ⟨Nat.max_eq_right hnx, rfl,
        fun hle => absurd hle hxy,
        fun _ => ⟨rfl, Nat.div_mul_le_self _ _,
          (Nat.div_lt_iff_lt_mul (by omega)).1 (Nat.lt_succ_self _)⟩⟩

/-- Concrete instantiation of `C7_normalize_dims`: a 800×600 image is left
untouched; a 2000×1000 image comes out 1200×600 (the spec's own scenario). -/
theorem C7_normalize_dims_witness :
    (max 800 600 ≤ maxImageDimension ∧
      normalizeImage (800, 600) = ((800, 600), ImgFormat.jpeg)) ∧
      (maxImageDimension < max 2000 1000 ∧
        (normalizeImage (2000, 1000)).1 = (1200, 600)) :=
  ⟨⟨by decide, (C7_normalize_dims 800 600).1 (by decide)⟩,
    ⟨by decide, by
      have h := (((C7_normalize_dims 2000 1000).2 (by decide)).2.2.1 (by decide)).1
      rw [h]
      decide⟩⟩

/-! ## Claim C3: upload step order -/

/-- C3 as stated is false: in the handler, `image.Decode` runs before
`playlistImagePath`; an authorized upload with the unsafe id `..` and an
undecodable body fails as invalid-image (HTTP 400 "invalid image file"),
not as invalid-identifier, and the decode attempt does happen. -/
theorem C3_counterexample :
    (playlistImagePath "/data".toList "..".toList).2 = false ∧
      (uploadPlaylistImage
          { dataFolder := "/data".toList, playlistID := "..".toList,
            getResult := .found ⟨"..".toList, "u1", []⟩,
            user := some ⟨"u1", false⟩,
            parseFormOk := true, formFileOk := true,
            decodeResult := none,
            mkdirOk := true, saveOk := true, putOk := true } []).outcome
        = UploadOutcome.invalidImage ∧
      UploadOutcome.invalidImage ≠ UploadOutcome.invalidIdentifier ∧
      Event.decodeAttempt ∈
        (uploadPlaylistImage
          { dataFolder := "/data".toList, playlistID := "..".toList,
            getResult := .found ⟨"..".toList, "u1", []⟩,
            user := some ⟨"u1", false⟩,
            parseFormOk := true, formFileOk := true,
            decodeResult := none,
            mkdirOk := true, saveOk := true, putOk := true } []).events := by
  refine ⟨by decide, by decide, by decide, by decide⟩

/-- C3 (amended): the upload handler's order is fetch, authorize, parse the
form, decode (`Normalize`'s decode step), resize, resolve the path, save,
commit.  For an authorized upload whose playlist id resolves to an unsafe
path, the decode is attempted first: an undecodable stream fails as
`invalidImage`, and only a decodable stream reaches the `invalidIdentifier`
failure; in both cases the trace is exactly the decode attempt, and the
filesystem and the playlist record are untouched. -/
theorem C3_resolve_after_decode (env : UploadEnv) (pls : Playlist) (u : User)
    (fs0 : List GoPath)
    (hget : env.getResult = .found pls)
    (huser : env.user = some u)
    (hauth : pls.ownerID = u.id ∨ u.isAdmin = true)
    (hform : env.parseFormOk = true)
    (hfile : env.formFileOk = true)
    (hbadid : (playlistImagePath env.dataFolder env.playlistID).2 = false) :
    ((env.decodeResult = none →
        (uploadPlaylistImage env fs0).outcome = .invalidImage) ∧
      (∀ dims, env.decodeResult = some dims →
        (uploadPlaylistImage env fs0).outcome = .invalidIdentifier)) ∧
      (uploadPlaylistImage env fs0).events = [.decodeAttempt] ∧
      (uploadPlaylistImage env fs0).fs = fs0 ∧
      (uploadPlaylistImage env fs0).record = some pls := by
  have hnauth : ¬(pls.ownerID ≠ u.id ∧ u.isAdmin = false) := by
    rcases hauth with h | h <;> simp [h]
  have hpp : playlistImagePath env.dataFolder env.playlistID
      = ((playlistImagePath env.dataFolder env.playlistID).1, false) :=
    Prod.ext rfl hbadid
  have hrun : uploadPlaylistImage env fs0 =
      match env.decodeResult with
      | none => ⟨.invalidImage, some pls, fs0, [.decodeAttempt]⟩
      | some _ => ⟨.invalidIdentifier, some pls, fs0, [.decodeAttempt]⟩ := by
    cases hdec : env.decodeResult with
    | none =>
      simp [uploadPlaylistImage, hget, huser, hnauth, hform, hfile, hdec]
    | some dims =>
      rw [uploadPlaylistImage]
      simp only [hget, huser, hform, hfile, hdec, hnauth, Bool.true_eq_false,
        if_false]
      rw [hpp]
  refine ⟨⟨fun hdec => ?_, fun dims hdec => ?_⟩, ?_, ?_, ?_⟩
  · rw [hrun, hdec]
  · rw [hrun, hdec]
  · rw [hrun]
    cases env.decodeResult <;> rfl
  · rw [hrun]
    cases env.decodeResult <;> rfl
  · rw [hrun]
    cases env.decodeResult <;> rfl

/-- Concrete instantiation of `C3_resolve_after_decode`: the unsafe id `..`
with a decodable 10×10 image fails as `invalidIdentifier` after the decode
attempt. -/
theorem C3_resolve_after_decode_witness :
    (uploadPlaylistImage
        { dataFolder := "/data".toList, playlistID := "..".toList,
          getResult := .found ⟨"..".toList, "u1", []⟩,
          user := some ⟨"u1", false⟩,
          parseFormOk := true, formFileOk := true,
          decodeResult := some (10, 10),
          mkdirOk := true, saveOk := true, putOk := true } []).outcome
      = UploadOutcome.invalidIdentifier ∧
    (uploadPlaylistImage
        { dataFolder := "/data".toList, playlistID := "..".toList,
          getResult := .found ⟨"..".toList, "u1", []⟩,
          user := some ⟨"u1", false⟩,
          parseFormOk := true, formFileOk := true,
          decodeResult := some (10, 10),
          mkdirOk := true, saveOk := true, putOk := true } []).events
      = [Event.decodeAttempt] := by
  have h := C3_resolve_after_decode
    { dataFolder := "/data".toList, playlistID := "..".toList,
      getResult := .found ⟨"..".toList, "u1", []⟩,
      user := some ⟨"u1", false⟩,
      parseFormOk := true, formFileOk := true,
      decodeResult := some (10, 10),
      mkdirOk := true, saveOk := true, putOk := true }
    ⟨"..".toList, "u1", []⟩ ⟨"u1", false⟩ [] rfl rfl (Or.inl rfl) rfl rfl
    (by decide)
  exact ⟨h.1.2 (10, 10) rfl, h.2.1⟩

/-! ## Claims C4 and C5: commit failure and its compensation -/

/-- C4: when everything up to and including the save succeeds and the
repository `Put` fails, the handler removes the just-written file (the
compensating `os.Remove(destPath)` appears in the trace after the failed
`Put`), fails as a persistence error (HTTP 500), and the playlist record is
left unchanged, retaining its prior `imagePath`. -/
theorem C4_commit_failure_compensates (env : UploadEnv) (pls : Playlist)
    (u : User) (fs0 : List GoPath) (dir : GoPath)
    (hget : env.getResult = .found pls)
    (huser : env.user = some u)
    (hauth : pls.ownerID = u.id ∨ u.isAdmin = true)
    (hform : env.parseFormOk = true)
    (hfile : env.formFileOk = true)
    (hdec : ∃ dims, env.decodeResult = some dims)
    (hsafe : playlistImagePath env.dataFolder env.playlistID = (dir, true))
    (hmkdir : env.mkdirOk = true)
    (hsave : env.saveOk = true)
    (hput : env.putOk = false) :
    (uploadPlaylistImage env fs0).outcome = .putError ∧
      uploadStatus (uploadPlaylistImage env fs0).outcome = 500 ∧
      (uploadPlaylistImage env fs0).record = some pls ∧
      (uploadPlaylistImage env fs0).events =
        [.decodeAttempt, .mkdirAll dir, .saveFile (goJoin [dir, coverJpg]),
          .putRecord { pls with imagePath := goJoin [dir, coverJpg] },
          .removeFile (goJoin [dir, coverJpg])] := by
  have hnauth : ¬(pls.ownerID ≠ u.id ∧ u.isAdmin = false) := by
    rcases hauth with h | h <;> simp [h]
  obtain ⟨dims, hdec⟩ := hdec
  have hrun : uploadPlaylistImage env fs0 =
      ⟨.putError, some pls,
        fsRemove (fsSave (fsMkdirAll fs0 dir) (goJoin [dir, coverJpg]))
          (goJoin [dir, coverJpg]),
        [.decodeAttempt, .mkdirAll dir, .saveFile (goJoin [dir, coverJpg]),
          .putRecord { pls with imagePath := goJoin [dir, coverJpg] },
          .removeFile (goJoin [dir, coverJpg])]⟩ := by
    rw [uploadPlaylistImage]
    simp only [hget, huser, hform, hfile, hdec, hnauth, hsafe, hmkdir, hsave,
      hput, Bool.true_eq_false, if_false, if_true]
  rw [hrun]
  exact ⟨rfl, rfl, rfl, rfl⟩

/-- Concrete instantiation of `C4_commit_failure_compensates` at the root
`/data`, playlist `p1`, and a failing `Put`. -/
theorem C4_commit_failure_compensates_witness :
    (uploadPlaylistImage
        { dataFolder := "/data".toList, playlistID := "p1".toList,
          getResult := .found ⟨"p1".toList, "u1", []⟩,
          user := some ⟨"u1", false⟩,
          parseFormOk := true, formFileOk := true,
          decodeResult := some (2000, 1000),
          mkdirOk := true, saveOk := true, putOk := false } []).outcome
      = UploadOutcome.putError ∧
    (uploadPlaylistImage
        { dataFolder := "/data".toList, playlistID := "p1".toList,
          getResult := .found ⟨"p1".toList, "u1", []⟩,
          user := some ⟨"u1", false⟩,
          parseFormOk := true, formFileOk := true,
          decodeResult := some (2000, 1000),
          mkdirOk := true, saveOk := true, putOk := false } []).record
      = some ⟨"p1".toList, "u1", []⟩ := by
  have h := C4_commit_failure_compensates
    { dataFolder := "/data".toList, playlistID := "p1".toList,
      getResult := .found ⟨"p1".toList, "u1", []⟩,
      user := some ⟨"u1", false⟩,
      parseFormOk := true, formFileOk := true,
      decodeResult := some (2000, 1000),
      mkdirOk := true, saveOk := true, putOk := false }
    ⟨"p1".toList, "u1", []⟩ ⟨"u1", false⟩ []
    "/data/playlist-images/p1".toList rfl rfl (Or.inl rfl) rfl rfl
    ⟨(2000, 1000), rfl⟩ (by decide) rfl rfl rfl
  exact ⟨h.1, h.2.2.1⟩

/-- C5 as stated is false: after a failed commit the compensation removes
only the file `cover.jpg`; the per-playlist directory
`/data/playlist-images/p1` still exists in the final filesystem. -/
theorem C5_counterexample :
    (uploadPlaylistImage
        { dataFolder := "/data".toList, playlistID := "p1".toList,
          getResult := .found ⟨"p1".toList, "u1", []⟩,
          user := some ⟨"u1", false⟩,
          parseFormOk := true, formFileOk := true,
          decodeResult := some (10, 10),
          mkdirOk := true, saveOk := true, putOk := false } []).outcome
      = UploadOutcome.putError ∧
    fsExists
      (uploadPlaylistImage
        { dataFolder := "/data".toList, playlistID := "p1".toList,
          getResult := .found ⟨"p1".toList, "u1", []⟩,
          user := some ⟨"u1", false⟩,
          parseFormOk := true, formFileOk := true,
          decodeResult := some (10, 10),
          mkdirOk := true, saveOk := true, putOk := false } []).fs
      "/data/playlist-images/p1".toList = true := by
  refine ⟨by decide, by decide⟩

/-- C5 (amended): the compensation after a failed commit deletes exactly the
just-written file `{dir}/cover.jpg` with `os.Remove` — the file is gone from
the final filesystem and a `removeFile` call is traced — while the
per-playlist directory itself survives, and no recursive directory removal
(the `os.RemoveAll` that `Remove` performs) ever appears in an upload
trace. -/
theorem C5_compensation_removes_file_only (env : UploadEnv) (pls : Playlist)
    (u : User) (fs0 : List GoPath) (dir : GoPath)
    (hget : env.getResult = .found pls)
    (huser : env.user = some u)
    (hauth : pls.ownerID = u.id ∨ u.isAdmin = true)
    (hform : env.parseFormOk = true)
    (hfile : env.formFileOk = true)
    (hdec : ∃ dims, env.decodeResult = some dims)
    (hsafe : playlistImagePath env.dataFolder env.playlistID = (dir, true))
    (hmkdir : env.mkdirOk = true)
    (hsave : env.saveOk = true)
    (hput : env.putOk = false) :
    goJoin [dir, coverJpg] ∉ (uploadPlaylistImage env fs0).fs ∧
      dir ∈ (uploadPlaylistImage env fs0).fs ∧
      Event.removeFile (goJoin [dir, coverJpg])
        ∈ (uploadPlaylistImage env fs0).events ∧
      ∀ d, Event.removeAll d ∉ (uploadPlaylistImage env fs0).events := by
  have hnauth : ¬(pls.ownerID ≠ u.id ∧ u.isAdmin = false) := by
    rcases hauth with h | h <;> simp [h]
  obtain ⟨dims, hdec⟩ := hdec
  have hrun : uploadPlaylistImage env fs0 =
      ⟨.putError, some pls,
        fsRemove (fsSave (fsMkdirAll fs0 dir) (goJoin [dir, coverJpg]))
          (goJoin [dir, coverJpg]),
        [.decodeAttempt, .mkdirAll dir, .saveFile (goJoin [dir, coverJpg]),
          .putRecord { pls with imagePath := goJoin [dir, coverJpg] },
          .removeFile (goJoin [dir, coverJpg])]⟩ := by
    rw [uploadPlaylistImage]
    simp only [hget, huser, hform, hfile, hdec, hnauth, hsafe, hmkdir, hsave,
      hput, Bool.true_eq_false, if_false, if_true]
  rw [hrun]
  refine ⟨?_, ?_, by simp, by simp⟩
  · simp [fsRemove]
  · simp only [fsRemove, fsSave, fsMkdirAll]
    rw [List.mem_filter]
    refine ⟨by simp, ?_⟩
    simp [Ne.symm (destPath_ne hsafe)]

/-- Concrete instantiation of `C5_compensation_removes_file_only`. -/
theorem C5_compensation_removes_file_only_witness :
    "/data/playlist-images/p1/cover.jpg".toList ∉
        (uploadPlaylistImage
          { dataFolder := "/data".toList, playlistID := "p1".toList,
            getResult := .found ⟨"p1".toList, "u1", []⟩,
            user := some ⟨"u1", false⟩,
            parseFormOk := true, formFileOk := true,
            decodeResult := some (10, 10),
            mkdirOk := true, saveOk := true, putOk := false } []).fs ∧
      "/data/playlist-images/p1".toList ∈
        (uploadPlaylistImage
          { dataFolder := "/data".toList, playlistID := "p1".toList,
            getResult := .found ⟨"p1".toList, "u1", []⟩,
            user := some ⟨"u1", false⟩,
            parseFormOk := true, formFileOk := true,
            decodeResult := some (10, 10),
            mkdirOk := true, saveOk := true, putOk := false } []).fs := by
  have h := C5_compensation_removes_file_only
    { dataFolder := "/data".toList, playlistID := "p1".toList,
      getResult := .found ⟨"p1".toList, "u1", []⟩,
      user := some ⟨"u1", false⟩,
      parseFormOk := true, formFileOk := true,
      decodeResult := some (10, 10),
      mkdirOk := true, saveOk := true, putOk := false }
    ⟨"p1".toList, "u1", []⟩ ⟨"u1", false⟩ []
    "/data/playlist-images/p1".toList rfl rfl (Or.inl rfl) rfl rfl
    ⟨(10, 10), rfl⟩ (by decide) rfl rfl rfl
  refine ⟨?_, h.2.1⟩
  have h1 := h.1
  rwa [show goJoin ["/data/playlist-images/p1".toList, coverJpg]
    = "/data/playlist-images/p1/cover.jpg".toList by decide] at h1

/-! ## Claims C6, C8, C9, C10: the delete handler and authorization -/

/-- C6: when the filesystem delete fails during Remove, the handler does not
abort: the `Put` clearing the image path is still performed, the operation
succeeds (HTTP 200), and the record's `imagePath` is cleared even though the
stored directory could not be deleted (the filesystem is left as it was). -/
theorem C6_remove_continues_after_delete_failure (env : DeleteEnv)
    (pls : Playlist) (u : User) (fs0 : List GoPath) (dir : GoPath)
    (hget : env.getResult = .found pls)
    (huser : env.user = some u)
    (hauth : pls.ownerID = u.id ∨ u.isAdmin = true)
    (himg : pls.imagePath ≠ [])
    (hsafe : playlistImagePath env.dataFolder env.playlistID = (dir, true))
    (hrm : env.removeAllOk = false)
    (hput : env.putOk = true) :
    (deletePlaylistImage env fs0).outcome = .ok ∧
      deleteStatus (deletePlaylistImage env fs0).outcome = 200 ∧
      (deletePlaylistImage env fs0).record
        = some { pls with imagePath := [] } ∧
      Event.removeAll dir ∈ (deletePlaylistImage env fs0).events ∧
      Event.putRecord { pls with imagePath := [] }
        ∈ (deletePlaylistImage env fs0).events ∧
      (deletePlaylistImage env fs0).fs = fs0 := by
  have hnauth : ¬(pls.ownerID ≠ u.id ∧ u.isAdmin = false) := by
    rcases hauth with h | h <;> simp [h]
  have hrun : deletePlaylistImage env fs0 =
      ⟨.ok, some { pls with imagePath := [] }, fs0,
        [.removeAll dir, .putRecord { pls with imagePath := [] }]⟩ := by
    rw [deletePlaylistImage]
    simp [hget, huser, hnauth, himg, hsafe, hrm, hput]
  rw [hrun]
  exact ⟨rfl, rfl, rfl, by simp, by simp, rfl⟩

/-- Concrete instantiation of `C6_remove_continues_after_delete_failure`. -/
theorem C6_remove_continues_after_delete_failure_witness :
    (deletePlaylistImage
        { dataFolder := "/data".toList, playlistID := "p1".toList,
          getResult := .found ⟨"p1".toList, "u1",
            "/data/playlist-images/p1/cover.jpg".toList⟩,
          user := some ⟨"u1", false⟩,
          removeAllOk := false, putOk := true } []).outcome
      = DeleteOutcome.ok ∧
    (deletePlaylistImage
        { dataFolder := "/data".toList, playlistID := "p1".toList,
          getResult := .found ⟨"p1".toList, "u1",
            "/data/playlist-images/p1/cover.jpg".toList⟩,
          user := some ⟨"u1", false⟩,
          removeAllOk := false, putOk := true } []).record
      = some ⟨"p1".toList, "u1", []⟩ := by
  have h := C6_remove_continues_after_delete_failure
    { dataFolder := "/data".toList, playlistID := "p1".toList,
      getResult := .found ⟨"p1".toList, "u1",
        "/data/playlist-images/p1/cover.jpg".toList⟩,
      user := some ⟨"u1", false⟩,
      removeAllOk := false, putOk := true }
    ⟨"p1".toList, "u1", "/data/playlist-images/p1/cover.jpg".toList⟩
    ⟨"u1", false⟩ [] "/data/playlist-images/p1".toList
    rfl rfl (Or.inl rfl) (by decide) (by decide) rfl rfl
  exact ⟨h.1, h.2.2.1⟩

/-- C8: an Upload or Remove by a caller who is neither the playlist's owner
nor an admin fails as Forbidden (HTTP 403) with an empty effect trace: no
filesystem write or delete, no repository `Put`, and both the record and the
filesystem are unchanged. -/
theorem C8_forbidden_no_effects (uenv : UploadEnv) (denv : DeleteEnv)
    (plsU plsD : Playlist) (uU uD : User) (fsU fsD : List GoPath)
    (hgetU : uenv.getResult = .found plsU)
    (huserU : uenv.user = some uU)
    (hnownU : plsU.ownerID ≠ uU.id)
    (hnadmU : uU.isAdmin = false)
    (hgetD : denv.getResult = .found plsD)
    (huserD : denv.user = some uD)
    (hnownD : plsD.ownerID ≠ uD.id)
    (hnadmD : uD.isAdmin = false) :
    ((uploadPlaylistImage uenv fsU).outcome = .forbidden ∧
      uploadStatus (uploadPlaylistImage uenv fsU).outcome = 403 ∧
      (uploadPlaylistImage uenv fsU).events = [] ∧
      (uploadPlaylistImage uenv fsU).fs = fsU ∧
      (uploadPlaylistImage uenv fsU).record = some plsU) ∧
    ((deletePlaylistImage denv fsD).outcome = .forbidden ∧
      deleteStatus (deletePlaylistImage denv fsD).outcome = 403 ∧
      (deletePlaylistImage denv fsD).events = [] ∧
      (deletePlaylistImage denv fsD).fs = fsD ∧
      (deletePlaylistImage denv fsD).record = some plsD) := by
  have hrunU : uploadPlaylistImage uenv fsU
      = ⟨.forbidden, some plsU, fsU, []⟩ := by
    rw [uploadPlaylistImage]
    simp [hgetU, huserU, hnownU, hnadmU]
  have hrunD : deletePlaylistImage denv fsD
      = ⟨.forbidden, some plsD, fsD, []⟩ := by
    rw [deletePlaylistImage]
    simp [hgetD, huserD, hnownD, hnadmD]
  rw [hrunU, hrunD]
  exact ⟨⟨rfl, rfl, rfl, rfl, rfl⟩, ⟨rfl, rfl, rfl, rfl, rfl⟩⟩

/-- Concrete instantiation of `C8_forbidden_no_effects`: `u2` attempting both
operations on `u1`'s playlist. -/
theorem C8_forbidden_no_effects_witness :
    (uploadPlaylistImage
        { dataFolder := "/data".toList, playlistID := "p1".toList,
          getResult := .found ⟨"p1".toList, "u1", []⟩,
          user := some ⟨"u2", false⟩,
          parseFormOk := true, formFileOk := true,
          decodeResult := some (10, 10),
          mkdirOk := true, saveOk := true, putOk := true } []).outcome
      = UploadOutcome.forbidden ∧
    (deletePlaylistImage
        { dataFolder := "/data".toList, playlistID := "p1".toList,
          getResult := .found ⟨"p1".toList, "u1",
            "/data/playlist-images/p1/cover.jpg".toList⟩,
          user := some ⟨"u2", false⟩,
          removeAllOk := true, putOk := true } []).outcome
      = DeleteOutcome.forbidden := by
  have h := C8_forbidden_no_effects
    { dataFolder := "/data".toList, playlistID := "p1".toList,
      getResult := .found ⟨"p1".toList, "u1", []⟩,
      user := some ⟨"u2", false⟩,
      parseFormOk := true, formFileOk := true,
      decodeResult := some (10, 10),
      mkdirOk := true, saveOk := true, putOk := true }
    { dataFolder := "/data".toList, playlistID := "p1".toList,
      getResult := .found ⟨"p1".toList, "u1",
        "/data/playlist-images/p1/cover.jpg".toList⟩,
      user := some ⟨"u2", false⟩,
      removeAllOk := true, putOk := true }
    ⟨"p1".toList, "u1", []⟩
    ⟨"p1".toList, "u1", "/data/playlist-images/p1/cover.jpg".toList⟩
    ⟨"u2", false⟩ ⟨"u2", false⟩ [] []
    rfl rfl (by decide) rfl rfl rfl (by decide) rfl
  exact ⟨h.1.1, h.2.1⟩

/-- C9: Remove on a playlist whose `imagePath` is empty fails as NotFound
(HTTP 404) with no filesystem operation and no `Put`; and after a successful
Remove the record's `imagePath` is empty, so a second Remove on the updated
record fails as NotFound — success then NotFound. -/
theorem C9_remove_empty_image_notfound (env : DeleteEnv) (pls : Playlist)
    (u : User) (fs0 : List GoPath)
    (hget : env.getResult = .found pls)
    (huser : env.user = some u)
    (hauth : pls.ownerID = u.id ∨ u.isAdmin = true) :
    (pls.imagePath = [] →
      (deletePlaylistImage env fs0).outcome = .noImage ∧
      deleteStatus (deletePlaylistImage env fs0).outcome = 404 ∧
      (deletePlaylistImage env fs0).events = [] ∧
      (deletePlaylistImage env fs0).fs = fs0 ∧
      (deletePlaylistImage env fs0).record = some pls) ∧
    (pls.imagePath ≠ [] → env.putOk = true →
      (deletePlaylistImage env fs0).outcome = .ok ∧
      (deletePlaylistImage env fs0).record
        = some { pls with imagePath := [] } ∧
      ∀ (env2 : DeleteEnv) (u2 : User) (fs1 : List GoPath),
        env2.getResult = .found { pls with imagePath := [] } →
        env2.user = some u2 →
        (pls.ownerID = u2.id ∨ u2.isAdmin = true) →
        (deletePlaylistImage env2 fs1).outcome = .noImage) := by
  have hnauth : ¬(pls.ownerID ≠ u.id ∧ u.isAdmin = false) := by
    rcases hauth with h | h <;> simp [h]
  constructor
  · intro himg
    have hrun : deletePlaylistImage env fs0 = ⟨.noImage, some pls, fs0, []⟩ := by
      rw [deletePlaylistImage]
      simp [hget, huser, hnauth, himg]
    rw [hrun]
    exact ⟨rfl, rfl, rfl, rfl, rfl⟩
  · intro himg hput
    refine ⟨?_, ?_, ?_⟩
    · rw [deletePlaylistImage]
      cases hpp : playlistImagePath env.dataFolder env.playlistID with
      | mk d s => cases s <;> simp [hget, huser, hnauth, himg, hput]
    · rw [deletePlaylistImage]
      cases hpp : playlistImagePath env.dataFolder env.playlistID with
      | mk d s => cases s <;> simp [hget, huser, hnauth, himg, hput]
    · intro env2 u2 fs1 hget2 huser2 hauth2
      have hnauth2 : ¬(pls.ownerID ≠ u2.id ∧ u2.isAdmin = false) := by
        rcases hauth2 with h | h <;> simp [h]
      rw [deletePlaylistImage]
      simp [hget2, huser2, hnauth2]

/-- Concrete instantiation of `C9_remove_empty_image_notfound`: the spec's
idempotence scenario — first Remove succeeds, the second yields NotFound. -/
theorem C9_remove_empty_image_notfound_witness :
    (deletePlaylistImage
        { dataFolder := "/data".toList, playlistID := "p1".toList,
          getResult := .found ⟨"p1".toList, "u1",
            "/data/playlist-images/p1/cover.jpg".toList⟩,
          user := some ⟨"u1", false⟩,
          removeAllOk := true, putOk := true } []).outcome
      = DeleteOutcome.ok ∧
    (deletePlaylistImage
        { dataFolder := "/data".toList, playlistID := "p1".toList,
          getResult := .found ⟨"p1".toList, "u1", []⟩,
          user := some ⟨"u1", false⟩,
          removeAllOk := true, putOk := true } []).outcome
      = DeleteOutcome.noImage := by
  have h := C9_remove_empty_image_notfound
    { dataFolder := "/data".toList, playlistID := "p1".toList,
      getResult := .found ⟨"p1".toList, "u1",
        "/data/playlist-images/p1/cover.jpg".toList⟩,
      user := some ⟨"u1", false⟩,
      removeAllOk := true, putOk := true }
    ⟨"p1".toList, "u1", "/data/playlist-images/p1/cover.jpg".toList⟩
    ⟨"u1", false⟩ [] rfl rfl (Or.inl rfl)
  have h2 := h.2 (by decide) rfl
  exact ⟨h2.1, h2.2.2
    { dataFolder := "/data".toList, playlistID := "p1".toList,
      getResult := .found ⟨"p1".toList, "u1", []⟩,
      user := some ⟨"u1", false⟩,
      removeAllOk := true, putOk := true }
    ⟨"u1", false⟩ [] rfl rfl (Or.inl rfl)⟩

/-- C10: Remove on a playlist with an image but an unsafe playlist id does
not fail as an invalid identifier (the delete handler has no such failure at
all): it skips the filesystem deletion — no `removeAll` in the trace, the
filesystem untouched — still clears `imagePath` through `Put`, and reports
success (HTTP 200). -/
theorem C10_remove_unsafe_id_succeeds (env : DeleteEnv) (pls : Playlist)
    (u : User) (fs0 : List GoPath)
    (hget : env.getResult = .found pls)
    (huser : env.user = some u)
    (hauth : pls.ownerID = u.id ∨ u.isAdmin = true)
    (himg : pls.imagePath ≠ [])
    (hbadid : (playlistImagePath env.dataFolder env.playlistID).2 = false)
    (hput : env.putOk = true) :
    (deletePlaylistImage env fs0).outcome = .ok ∧
      deleteStatus (deletePlaylistImage env fs0).outcome = 200 ∧
      (deletePlaylistImage env fs0).fs = fs0 ∧
      (∀ d, Event.removeAll d ∉ (deletePlaylistImage env fs0).events) ∧
      (deletePlaylistImage env fs0).events
        = [.putRecord { pls with imagePath := [] }] ∧
      (deletePlaylistImage env fs0).record
        = some { pls with imagePath := [] } := by
  have hnauth : ¬(pls.ownerID ≠ u.id ∧ u.isAdmin = false) := by
    rcases hauth with h | h <;> simp [h]
  have hpp : playlistImagePath env.dataFolder env.playlistID
      = ((playlistImagePath env.dataFolder env.playlistID).1, false) :=
    Prod.ext rfl hbadid
  have hrun : deletePlaylistImage env fs0 =
      ⟨.ok, some { pls with imagePath := [] }, fs0,
        [.putRecord { pls with imagePath := [] }]⟩ := by
    rw [deletePlaylistImage]
    simp only [hget, huser, hnauth, himg, hput]
    rw [hpp]
    simp [himg]
  rw [hrun]
  exact ⟨rfl, rfl, rfl, by simp, rfl, rfl⟩

/-- Concrete instantiation of `C10_remove_unsafe_id_succeeds` at the unsafe
id `..`. -/
theorem C10_remove_unsafe_id_succeeds_witness :
    (deletePlaylistImage
        { dataFolder := "/data".toList, playlistID := "..".toList,
          getResult := .found ⟨"..".toList, "u1",
            "/evil/path".toList⟩,
          user := some ⟨"u1", false⟩,
          removeAllOk := true, putOk := true } []).outcome
      = DeleteOutcome.ok ∧
    (deletePlaylistImage
        { dataFolder := "/data".toList, playlistID := "..".toList,
          getResult := .found ⟨"..".toList, "u1",
            "/evil/path".toList⟩,
          user := some ⟨"u1", false⟩,
          removeAllOk := true, putOk := true } []).fs = [] := by
  have h := C10_remove_unsafe_id_succeeds
    { dataFolder := "/data".toList, playlistID := "..".toList,
      getResult := .found ⟨"..".toList, "u1", "/evil/path".toList⟩,
      user := some ⟨"u1", false⟩,
      removeAllOk := true, putOk := true }
    ⟨"..".toList, "u1", "/evil/path".toList⟩
    ⟨"u1", false⟩ [] rfl rfl (Or.inl rfl) (by decide) (by decide) rfl
  exact ⟨h.1, h.2.2.1⟩
